import Mathlib

set_option maxHeartbeats 1000000

/-!
# Verification of the easy-slam state-estimation and map-consolidation core

This file gives a shallow embedding of the estimation core of the easy-slam
repository and proves the specification's claims about it.

Two kinds of definitions appear:

* Definitions translated from `core.py` of the repository
  (`matrix_to_quaternion`, the algorithm/sensor dispatch of
  `_initialize_algorithm` / `_initialize_sensor`, and the
  `get_fused_pose` / `get_global_map` accessors).  Floating point numbers are
  embedded as real numbers.

* Definitions marked `Modelled from the spec:`.  The files
  `easy_slam/utils/sensor_fusion.py` (the State Fuser) and
  `easy_slam/utils/map_merging.py` (the Pairwise Map Registrar and the
  Multi-Session Mapper) are not part of the repository snapshot; only their
  callers, demos and tests are.  Those components are therefore modelled
  directly from the specification's §3, §4 and §7, and the claims that concern
  them are settled against the model.  Point clouds of the Registrar/Mapper
  model are embedded over ℚ (their pipeline uses only field operations and
  floor), which keeps that part of the model fully executable; the Fuser needs
  a square root for quaternion normalization and is embedded over ℝ.
-/

/-- A 3-component vector over a scalar type (numpy arrays of length 3). -/
@[ext] structure V3 (α : Type) where
  x : α
  y : α
  z : α
  deriving DecidableEq

/-- Componentwise vector addition. -/
def vadd {α : Type} [Add α] (a b : V3 α) : V3 α := ⟨a.x + b.x, a.y + b.y, a.z + b.z⟩

/-- Componentwise vector subtraction. -/
def vsub {α : Type} [Sub α] (a b : V3 α) : V3 α := ⟨a.x - b.x, a.y - b.y, a.z - b.z⟩

/-- Scalar multiple of a vector. -/
def vscale {α : Type} [Mul α] (c : α) (a : V3 α) : V3 α := ⟨c * a.x, c * a.y, c * a.z⟩

/-- The zero vector. -/
def v3zero {α : Type} [Zero α] : V3 α := ⟨0, 0, 0⟩

/-- A 3×3 matrix over a scalar type, entry `mIJ` at row I, column J. -/
@[ext] structure Mat3 (α : Type) where
  m00 : α
  m01 : α
  m02 : α
  m10 : α
  m11 : α
  m12 : α
  m20 : α
  m21 : α
  m22 : α
  deriving DecidableEq

/-- The identity 3×3 matrix. -/
def idMat3 {α : Type} [Zero α] [One α] : Mat3 α :=
  ⟨1, 0, 0, 0, 1, 0, 0, 0, 1⟩

/-- Matrix product of two 3×3 matrices. -/
def mat3Mul {α : Type} [Add α] [Mul α] (A B : Mat3 α) : Mat3 α :=
  ⟨A.m00 * B.m00 + A.m01 * B.m10 + A.m02 * B.m20,
   A.m00 * B.m01 + A.m01 * B.m11 + A.m02 * B.m21,
   A.m00 * B.m02 + A.m01 * B.m12 + A.m02 * B.m22,
   A.m10 * B.m00 + A.m11 * B.m10 + A.m12 * B.m20,
   A.m10 * B.m01 + A.m11 * B.m11 + A.m12 * B.m21,
   A.m10 * B.m02 + A.m11 * B.m12 + A.m12 * B.m22,
   A.m20 * B.m00 + A.m21 * B.m10 + A.m22 * B.m20,
   A.m20 * B.m01 + A.m21 * B.m11 + A.m22 * B.m21,
   A.m20 * B.m02 + A.m21 * B.m12 + A.m22 * B.m22⟩

/-- Matrix-vector product. -/
def mat3Apply {α : Type} [Add α] [Mul α] (A : Mat3 α) (v : V3 α) : V3 α :=
  ⟨A.m00 * v.x + A.m01 * v.y + A.m02 * v.z,
   A.m10 * v.x + A.m11 * v.y + A.m12 * v.z,
   A.m20 * v.x + A.m21 * v.y + A.m22 * v.z⟩

/-- Scalar multiple of a 3×3 matrix. -/
def mat3Scale {α : Type} [Mul α] (c : α) (A : Mat3 α) : Mat3 α :=
  ⟨c * A.m00, c * A.m01, c * A.m02,
   c * A.m10, c * A.m11, c * A.m12,
   c * A.m20, c * A.m21, c * A.m22⟩

/-! ## Pairwise Map Registrar and Multi-Session Mapper (modelled from the spec)

Point clouds are ordered lists of rational 3-vectors (spec §3, "Session" and
"GlobalMap"); a rigid transform is a rotation matrix plus a translation
(spec §3, "AlignmentTransform").  The numeric constants below (voxel size,
correspondence radius, thresholds) are configuration values the spec leaves
unspecified; they are fixed here to concrete rationals. -/

/-- A point cloud: an ordered collection of 3-D points. -/
abbrev Cloud : Type := List (V3 ℚ)

/-- Squared Euclidean distance between two points. -/
def distSq (a b : V3 ℚ) : ℚ := (a.x - b.x) ^ 2 + (a.y - b.y) ^ 2 + (a.z - b.z) ^ 2

/-- Modelled from the spec: a rigid transform (rotation + translation) plus a
scalar registration-quality score is the spec's `AlignmentTransform`; the
quality is carried separately in `MergeResult` and `Session`. -/
@[ext] structure RigidT where
  rot : Mat3 ℚ
  trans : V3 ℚ
  deriving DecidableEq

/-- The identity rigid transform. -/
def idT : RigidT := ⟨idMat3, v3zero⟩

/-- Apply a rigid transform to a point. -/
def applyT (T : RigidT) (p : V3 ℚ) : V3 ℚ := vadd (mat3Apply T.rot p) T.trans

/-- Compose rigid transforms: `composeT T2 T1` applies `T1` first. -/
def composeT (T2 T1 : RigidT) : RigidT :=
  ⟨mat3Mul T2.rot T1.rot, vadd (mat3Apply T2.rot T1.trans) T2.trans⟩

/-- Voxel size of the downsampling grid (configuration value). -/
def vox : ℚ := 1

/-- The voxel cell a point falls into: integer grid coordinates. -/
def cellOf (p : V3 ℚ) : ℤ × ℤ × ℤ := (⌊p.x / vox⌋, ⌊p.y / vox⌋, ⌊p.z / vox⌋)

/-- Fuel-based recursion for `voxelDown` (the fuel only bounds the recursion
depth; `voxelDown` always supplies enough, so the `0, _ :: _` case is never
reached). -/
def voxelDownAux : ℕ → Cloud → Cloud
  | _, [] => []
  | 0, _ :: _ => []
  | n + 1, p :: rest =>
      p :: voxelDownAux n (rest.filter (fun q => decide (cellOf q ≠ cellOf p)))

/-- Modelled from the spec: voxel-grid downsampling ("partition space into a
uniform grid, replace all points in each occupied cell by a single
representative point", spec §4.2): the representative kept for each occupied
cell is the cloud's first point in that cell. -/
def voxelDown (l : Cloud) : Cloud := voxelDownAux l.length l

/-- The set of occupied voxel cells of a cloud. -/
def cellFinset (l : Cloud) : Finset (ℤ × ℤ × ℤ) := (l.map cellOf).toFinset

/-- Nearest-neighbor scan: fold over the target keeping the closest point so
far (ties keep the earlier point). -/
def nearestAux (p : V3 ℚ) : Cloud → Option (V3 ℚ) → Option (V3 ℚ)
  | [], best => best
  | q :: rest, none => nearestAux p rest (some q)
  | q :: rest, some b =>
      nearestAux p rest (if distSq p q < distSq p b then some q else some b)

/-- Nearest neighbor of `p` in `tgt`, `none` for an empty target. -/
def nearest (p : V3 ℚ) (tgt : Cloud) : Option (V3 ℚ) :=
  nearestAux p tgt none

/-- Modelled from the spec: for each point of `src`, its nearest neighbor in
`tgt` kept only when within the maximum correspondence distance (`mds` is that
distance squared). -/
def correspondences (src tgt : Cloud) (mds : ℚ) : List (V3 ℚ × V3 ℚ) :=
  src.filterMap (fun p =>
    match nearest p tgt with
    | none => none
    | some q => if distSq p q ≤ mds then some (p, q) else none)

/-- Sum of a list of vectors. -/
def sumV (l : Cloud) : V3 ℚ := l.foldl vadd v3zero

/-- Modelled from the spec: the per-iteration rigid-transform estimate from
matched pairs.  The spec asks for the closed-form least-squares
rotation+translation; the rotation part (an SVD) is beyond this embedding, so
the estimate is modelled as the least-squares translation (the centroid
difference) with identity rotation.  On matched pairs with zero residual —
the only registration path a claim exercises — this coincides with the full
least-squares solution, whose optimum there is the identity transform. -/
def estimateT (corr : List (V3 ℚ × V3 ℚ)) : RigidT :=
  ⟨idMat3,
   vscale (1 / (corr.length : ℚ))
     (vsub (sumV (corr.map Prod.snd)) (sumV (corr.map Prod.fst)))⟩

/-- Mean squared distance of matched pairs. -/
def meanSqDist (corr : List (V3 ℚ × V3 ℚ)) : ℚ :=
  ((corr.map (fun pr => distSq pr.1 pr.2)).sum) / (corr.length : ℚ)

/-- Modelled from the spec: the quality score is "the final mean
correspondence distance (or the fraction of points with no correspondence
within range, whichever is worse)" (§4.2); distances enter squared, smaller is
better, `0` is the best possible value. -/
def qualityOf (work tgt : Cloud) (mds : ℚ) : ℚ :=
  let corr := correspondences work tgt mds
  if work.length = 0 then 0
  else max (meanSqDist corr) (((work.length - corr.length : ℕ) : ℚ) / (work.length : ℚ))

/-- Minimum number of initial correspondences required (configuration value;
below it registration is a numerical degeneracy, spec §7b). -/
def minCorr : ℕ := 1

/-- Initial maximum correspondence distance, squared (configuration value). -/
def maxDistSq0 : ℚ := 1

/-- Registration-quality rejection bound (configuration value): a final
quality above it fails the merge. -/
def rejectBound : ℚ := 1 / 2

/-- Convergence threshold on the change of mean squared error. -/
def convEps : ℚ := 1 / 1000000

/-- Maximum number of ICP iterations. -/
def maxIter : ℕ := 30

/-- Modelled from the spec: one run of iterative-closest-point refinement
(spec §4.2).  Each iteration matches `work` against `tgt` within the current
maximum correspondence distance, estimates a rigid transform, applies it to
the working copy, accumulates it, and stops when the mean squared error
changes by less than `convEps` (or the fuel — the iteration budget — runs
out); the correspondence distance shrinks across iterations. -/
def icpLoop : ℕ → Cloud → Cloud → RigidT → ℚ → Option ℚ → RigidT × Cloud × ℚ
  | 0, work, tgt, acc, mds, _ => (acc, work, qualityOf work tgt mds)
  | n + 1, work, tgt, acc, mds, prev =>
      let corr := correspondences work tgt mds
      if corr.length < minCorr then (acc, work, qualityOf work tgt mds)
      else
        let T := estimateT corr
        let work2 := work.map (applyT T)
        let acc2 := composeT T acc
        let mse := meanSqDist corr
        match prev with
        | some pm =>
            if |pm - mse| < convEps then (acc2, work2, qualityOf work2 tgt mds)
            else icpLoop n work2 tgt acc2 (mds / 2) (some mse)
        | none => icpLoop n work2 tgt acc2 (mds / 2) (some mse)

/-- Number of correspondences found after downsampling, before any iteration:
the gate of the Registrar's failure policy. -/
def initialCorrCount (ref inc : Cloud) : ℕ :=
  (correspondences (voxelDown inc) (voxelDown ref) maxDistSq0).length

/-- The ICP result for a pair of clouds: accumulated transform, aligned
working copy of the incoming cloud, and final quality. -/
def icpResult (ref inc : Cloud) : RigidT × Cloud × ℚ :=
  icpLoop maxIter (voxelDown inc) (voxelDown ref) idT maxDistSq0 none

/-- Final registration quality of a pair of clouds. -/
def registrationQuality (ref inc : Cloud) : ℚ := (icpResult ref inc).2.2

/-- Result of the Registrar's `merge`: merged cloud, alignment transform,
quality score, and a validity flag (`success = false` marks the result
invalid). -/
@[ext] structure MergeResult where
  cloud : Cloud
  transform : RigidT
  quality : ℚ
  success : Bool
  deriving DecidableEq

/-- Modelled from the spec: the Pairwise Map Registrar's
`merge(reference_cloud, incoming_cloud) -> (merged_cloud, transform, quality)`
(spec §4.2, implemented in the absent `easy_slam/utils/map_merging.py`).
Both clouds are voxel-downsampled; if the initial correspondence count is
below `minCorr`, or the final quality exceeds `rejectBound`, the operation
fails and returns the reference cloud unchanged, the identity transform and
the invalid flag; otherwise the aligned incoming cloud is concatenated onto
the reference cloud and the union voxel-downsampled. -/
def merge (ref inc : Cloud) : MergeResult :=
  if initialCorrCount ref inc < minCorr then ⟨ref, idT, 0, false⟩
  else if rejectBound < registrationQuality ref inc then
    ⟨ref, idT, registrationQuality ref inc, false⟩
  else
    ⟨voxelDown (ref ++ (icpResult ref inc).2.1), (icpResult ref inc).1,
     registrationQuality ref inc, true⟩

/-- State of a session in the Multi-Session Mapper's state machine
(spec §4.3): `Added → Registered` on success, `Added → Rejected` on a failed
registration. -/
inductive SessionState where
  | Added
  | Registered
  | Rejected
  deriving DecidableEq

/-- Modelled from the spec: a capture session — point collection plus the
trajectory that produced it — together with its registration state and its
stored alignment transform (spec §3). -/
structure Session where
  cloud : Cloud
  trajectory : List RigidT
  state : SessionState
  transform : RigidT
  deriving DecidableEq

/-- Modelled from the spec: the Multi-Session Mapper — an ordered collection
of sessions and the accumulated global map (spec §4.3, implemented in the
absent `easy_slam/utils/map_merging.py`). -/
structure Mapper where
  sessions : List Session
  globalMap : Cloud
  deriving DecidableEq

/-- A Mapper holding no sessions and an empty global map. -/
def emptyMapper : Mapper := ⟨[], []⟩

/-- Modelled from the spec: `add_session` (spec §4.3).  The first session
defines the global frame: identity transform, `Registered` immediately, no
Registrar invocation.  A later session is merged against the current global
map: on success its transform is stored, its trajectory is mapped into the
global frame and the merged cloud replaces the global map; on failure the
session is retained marked `Rejected` and the global map is left unchanged. -/
def add_session (m : Mapper) (cloud : Cloud) (traj : List RigidT) : Mapper :=
  if m.sessions.isEmpty then
    { sessions := [⟨cloud, traj, SessionState.Registered, idT⟩],
      globalMap := voxelDown cloud }
  else
    let r := merge m.globalMap cloud
    if r.success then
      { sessions := m.sessions ++
          [⟨cloud, traj.map (composeT r.transform), SessionState.Registered, r.transform⟩],
        globalMap := r.cloud }
    else
      { sessions := m.sessions ++ [⟨cloud, traj, SessionState.Rejected, idT⟩],
        globalMap := m.globalMap }

/-- The current global map snapshot (spec §4.3, `global_map()`). -/
def global_map (m : Mapper) : Cloud := m.globalMap

/-- The stored alignment transform of a session, by position in the ordered
session collection (spec §4.3, `session_transform`). -/
def session_transform (m : Mapper) (i : ℕ) : Option RigidT :=
  (m.sessions[i]?).map Session.transform

/-- A cloud is in downsampled form when it is the image of some cloud under
`voxelDown`: one representative point per occupied cell. -/
def IsDownsampled (g : Cloud) : Prop := ∃ l, g = voxelDown l

/-- The Mapper's data invariant: the global map is kept in downsampled form,
and a Mapper with no sessions has an empty global map.  It holds for
`emptyMapper` and is preserved by `add_session`. -/
def MapperWF (m : Mapper) : Prop :=
  IsDownsampled m.globalMap ∧ (m.sessions = [] → m.globalMap = [])

/-- A concrete one-session Mapper (its global map holds the origin), used by
witnesses. -/
def demoMapper : Mapper :=
  ⟨[⟨[⟨0, 0, 0⟩], [], SessionState.Registered, idT⟩], voxelDown [⟨0, 0, 0⟩]⟩

/-- A concrete singleton cloud 5 units away from `demoMapper`'s global map:
no correspondence exists within the maximum distance, so registration against
`demoMapper` fails. -/
def demoFarCloud : Cloud := [⟨5, 0, 0⟩]

/-! ## State Fuser (modelled from the spec)

`easy_slam/utils/sensor_fusion.py` is absent from the snapshot; the Fuser is
modelled from spec §3, §4.1 and §7a over the reals.  The spec's 10×10 state
covariance is abstracted to a scalar uncertainty magnitude: the prediction
step grows it by process noise scaled by Δt and a correction shrinks it
through the gain, which is all the claims observe of it.  Over ℝ every value
is finite, so the spec's "non-finite input" guard has no separate case in the
embedding. -/

noncomputable section

/-- A quaternion `w + x·i + y·j + z·k` over the reals. -/
@[ext] structure Quat where
  w : ℝ
  x : ℝ
  y : ℝ
  z : ℝ

/-- Hamilton product of two quaternions. -/
def quatMul (a b : Quat) : Quat :=
  ⟨a.w * b.w - a.x * b.x - a.y * b.y - a.z * b.z,
   a.w * b.x + a.x * b.w + a.y * b.z - a.z * b.y,
   a.w * b.y - a.x * b.z + a.y * b.w + a.z * b.x,
   a.w * b.z + a.x * b.y - a.y * b.x + a.z * b.w⟩

/-- Quaternion conjugate. -/
def quatConj (a : Quat) : Quat := ⟨a.w, -a.x, -a.y, -a.z⟩

/-- Quaternion negation. -/
def quatNeg (a : Quat) : Quat := ⟨-a.w, -a.x, -a.y, -a.z⟩

/-- Scalar multiple of a quaternion. -/
def quatSmul (c : ℝ) (a : Quat) : Quat := ⟨c * a.w, c * a.x, c * a.y, c * a.z⟩

/-- Squared Euclidean norm of a quaternion. -/
def quatNormSq (a : Quat) : ℝ := a.w ^ 2 + a.x ^ 2 + a.y ^ 2 + a.z ^ 2

/-- Normalization to unit norm (division by the Euclidean norm). -/
def normalizeQ (a : Quat) : Quat := quatSmul (1 / Real.sqrt (quatNormSq a)) a

/-- Rotation of a vector by a quaternion: the vector part of `q ⊗ (0,v) ⊗ q*`. -/
def rotateV (q : Quat) (v : V3 ℝ) : V3 ℝ :=
  let r := quatMul (quatMul q ⟨0, v.x, v.y, v.z⟩) (quatConj q)
  ⟨r.x, r.y, r.z⟩

/-- Shorter-arc sign convention for a relative rotation quaternion: flip the
sign when the scalar part is negative, so the quaternion represents the
minimal rotation between the two orientations. -/
def shorterArc (d : Quat) : Quat := if d.w < 0 then quatNeg d else d

/-- The identity quaternion. -/
def quatOne : Quat := ⟨1, 0, 0, 0⟩

/-- Modelled from the spec: `FusedState`, the Fuser's sole mutable entity —
position, velocity, orientation quaternion, an uncertainty magnitude
(abstracting the spec's covariance, see the section comment) and the
last-update timestamp (spec §3). -/
structure FusedState where
  position : V3 ℝ
  velocity : V3 ℝ
  orientation : Quat
  cov : ℝ
  last_t : ℝ

/-- The Fuser's construction-time default: identity pose, zero velocity,
large initial uncertainty (spec §3). -/
def initState : FusedState := ⟨v3zero, v3zero, quatOne, 1000, 0⟩

/-- Clamp bound on Δt ("a small positive maximum", spec §4.1; configuration
value). -/
def dtMax : ℝ := 1 / 2

/-- The configured gravity vector (spec §4.1; configuration value). -/
def gravity : V3 ℝ := ⟨0, 0, 981 / 100⟩

/-- Process-noise growth rate of the uncertainty (configuration value). -/
def qProcNoise : ℝ := 1 / 100

/-- Visual-measurement noise magnitude (configuration value). -/
def rVisual : ℝ := 1 / 10

/-- Absolute-position measurement noise magnitude (configuration value). -/
def rAbsolute : ℝ := 1

/-- Modelled from the spec: `add_inertial(angular_velocity, linear_acceleration,
timestamp)`, the prediction step (spec §4.1).  Δt since the last processed
measurement is computed and, when positive, clamped to `dtMax`; a Δt ≤ 0 makes
the call a no-op returning `false`.  Orientation is propagated by integrating
the angular velocity (first-order quaternion integration, then mandatory
re-normalization to keep the unit-norm invariant of spec §3), velocity by
rotating the linear acceleration into the world frame and subtracting
gravity, position by integrating velocity; the uncertainty grows by process
noise scaled by Δt. -/
def add_inertial (s : FusedState) (omega acc : V3 ℝ) (t : ℝ) : FusedState × Bool :=
  let dtRaw := t - s.last_t
  if dtRaw ≤ 0 then (s, false)
  else
    let dt := min dtRaw dtMax
    let qDelta : Quat := ⟨1, omega.x * dt / 2, omega.y * dt / 2, omega.z * dt / 2⟩
    let worldAcc := vsub (rotateV s.orientation acc) gravity
    ({ position := vadd s.position (vscale dt s.velocity),
       velocity := vadd s.velocity (vscale dt worldAcc),
       orientation := normalizeQ (quatMul s.orientation qDelta),
       cov := s.cov + qProcNoise * dt,
       last_t := t }, true)

/-- Modelled from the spec: `add_visual(position, orientation)`, a correction
step (spec §4.1).  The orientation innovation is the minimal rotation from
the predicted to the measured orientation (shorter-arc sign convention), not
a raw subtraction; the gain is formed from the current uncertainty and the
configured visual noise; a fraction `k` of the innovation is applied and the
orientation is re-normalized afterwards (mandatory invariant restoration).
A non-normalizable measured quaternion, or an update that would collapse the
orientation to zero, rejects the call and leaves the state unchanged
(spec §7a). -/
def add_visual (s : FusedState) (pos : V3 ℝ) (qMeas : Quat) : FusedState × Bool :=
  if quatNormSq qMeas = 0 then (s, false)
  else
    let k := s.cov / (s.cov + rVisual)
    let deltaMin := shorterArc (quatMul (normalizeQ qMeas) (quatConj s.orientation))
    let blend : Quat := ⟨(1 - k) + k * deltaMin.w, k * deltaMin.x, k * deltaMin.y, k * deltaMin.z⟩
    let qRaw := quatMul blend s.orientation
    if quatNormSq qRaw = 0 then (s, false)
    else
      ({ position := vadd s.position (vscale k (vsub pos s.position)),
         velocity := s.velocity,
         orientation := normalizeQ qRaw,
         cov := (1 - k) * s.cov,
         last_t := s.last_t }, true)

/-- Modelled from the spec: `add_absolute_position(position)`, a correction on
the position degrees of freedom only (spec §4.1). -/
def add_absolute_position (s : FusedState) (pos : V3 ℝ) : FusedState × Bool :=
  let k := s.cov / (s.cov + rAbsolute)
  ({ s with
      position := vadd s.position (vscale k (vsub pos s.position)),
      cov := (1 - k) * s.cov }, true)

/-- Pure read accessor for the fused pose (spec §4.1). -/
def fused_pose (s : FusedState) : V3 ℝ × Quat := (s.position, s.orientation)

/-- A timestamped inertial measurement (spec §3, Measurement/Inertial). -/
structure InertialMeas where
  t : ℝ
  omega : V3 ℝ
  acc : V3 ℝ

/-- Feed a sequence of inertial measurements through the Fuser in order. -/
def runInertial (s : FusedState) (L : List InertialMeas) : FusedState :=
  L.foldl (fun st m => (add_inertial st m.omega m.acc m.t).1) s

/-! ## Rotation-matrix-to-quaternion conversion (`core.py`, `_matrix_to_quaternion`) -/

/-- Trace of a 3×3 real matrix (`np.trace`). -/
def trace3 (R : Mat3 ℝ) : ℝ := R.m00 + R.m11 + R.m22

/-- The rotation matrix of a quaternion (standard convention, homogeneous
quadratic form; for a unit quaternion this is the usual rotation matrix).
This is the mathematical reference against which the conversion of the source
is checked. -/
def quatRot (q : Quat) : Mat3 ℝ :=
  ⟨q.w ^ 2 + q.x ^ 2 - q.y ^ 2 - q.z ^ 2, 2 * (q.x * q.y - q.w * q.z), 2 * (q.x * q.z + q.w * q.y),
   2 * (q.x * q.y + q.w * q.z), q.w ^ 2 - q.x ^ 2 + q.y ^ 2 - q.z ^ 2, 2 * (q.y * q.z - q.w * q.x),
   2 * (q.x * q.z - q.w * q.y), 2 * (q.y * q.z + q.w * q.x), q.w ^ 2 - q.x ^ 2 - q.y ^ 2 + q.z ^ 2⟩

/-- Translated from `core.py`, `EasySLAM._matrix_to_quaternion` (lines
416-446): the four-branch trace / largest-diagonal conversion from a rotation
matrix to a quaternion `[w, x, y, z]`. -/
def matrix_to_quaternion (R : Mat3 ℝ) : Quat :=
  if 0 < trace3 R then
    let S := Real.sqrt (trace3 R + 1) * 2
    ⟨0.25 * S, (R.m21 - R.m12) / S, (R.m02 - R.m20) / S, (R.m10 - R.m01) / S⟩
  else if R.m00 > R.m11 ∧ R.m00 > R.m22 then
    let S := Real.sqrt (1 + R.m00 - R.m11 - R.m22) * 2
    ⟨(R.m21 - R.m12) / S, 0.25 * S, (R.m01 + R.m10) / S, (R.m02 + R.m20) / S⟩
  else if R.m11 > R.m22 then
    let S := Real.sqrt (1 + R.m11 - R.m00 - R.m22) * 2
    ⟨(R.m02 - R.m20) / S, (R.m01 + R.m10) / S, 0.25 * S, (R.m12 + R.m21) / S⟩
  else
    let S := Real.sqrt (1 + R.m22 - R.m00 - R.m11) * 2
    ⟨(R.m10 - R.m01) / S, (R.m02 + R.m20) / S, (R.m12 + R.m21) / S, 0.25 * S⟩

/-- The divisor `S` used by the branch `matrix_to_quaternion` takes on `R`
(mirrors the branch structure of the source exactly); every division in the
conversion is by this value. -/
def m2qS (R : Mat3 ℝ) : ℝ :=
  if 0 < trace3 R then Real.sqrt (trace3 R + 1) * 2
  else if R.m00 > R.m11 ∧ R.m00 > R.m22 then Real.sqrt (1 + R.m00 - R.m11 - R.m22) * 2
  else if R.m11 > R.m22 then Real.sqrt (1 + R.m11 - R.m00 - R.m22) * 2
  else Real.sqrt (1 + R.m22 - R.m00 - R.m11) * 2

/-! ## Algorithm/sensor dispatch and accessors (`core.py`) -/

/-- The SLAM algorithm instances `_initialize_algorithm` can construct. -/
inductive Algorithm where
  | orbslam
  | fastslam
  | graphslam
  | visualInertial
  | rgbdslam
  deriving DecidableEq

/-- The sensor instances `_initialize_sensor` can construct. -/
inductive Sensor where
  | webcam (idx : ℤ)
  | realsense
  | stereo
  | lidar
  | dataset (path : String)
  deriving DecidableEq

/-- The `camera` constructor argument: an index or a string
(`Union[int, str]`). -/
inductive CameraArg where
  | idx (n : ℤ)
  | name (s : String)
  deriving DecidableEq

/-- Translated from `core.py` lines 162-174: the string-keyed dispatch of
`_initialize_algorithm`; the final `else` raises
`ValueError(f"Unsupported algorithm: ...")`, embedded as `Except.error`. -/
def dispatchAlgorithm (name : String) : Except String Algorithm :=
  if name = "orb_slam" then .ok .orbslam
  else if name = "fastslam" then .ok .fastslam
  else if name = "graphslam" then .ok .graphslam
  else if name = "visual_inertial" then .ok .visualInertial
  else if name = "rgbd_slam" then .ok .rgbdslam
  else .error ("Unsupported algorithm: " ++ name)

/-- Translated from `core.py` lines 158-179: `_initialize_algorithm` wraps the
dispatch in `try/except`; any raised error is logged (`handle_error`) and a
default `ORBSLAM()` instance is substituted, so construction always yields an
algorithm. -/
def initAlgorithm (name : String) : Algorithm :=
  match dispatchAlgorithm name with
  | .ok a => a
  | .error _ => .orbslam

/-- Translated from `core.py` lines 140-151: the dispatch of
`_initialize_sensor`.  An integer index or `"webcam"` selects the webcam;
otherwise the named special sensors; otherwise an existing path selects the
dataset sensor (`pathExists` stands for `os.path.exists(camera)`); otherwise
`ValueError(f"Unsupported sensor type: ...")` is raised, embedded as
`Except.error`. -/
def dispatchSensor (camera : CameraArg) (pathExists : Bool) : Except String Sensor :=
  match camera with
  | .idx n => .ok (.webcam n)
  | .name s =>
      if s = "webcam" then .ok (.webcam 0)
      else if s = "realsense" then .ok .realsense
      else if s = "stereo" then .ok .stereo
      else if s = "lidar" then .ok .lidar
      else if pathExists then .ok (.dataset s)
      else .error ("Unsupported sensor type: " ++ s)

/-- Translated from `core.py` lines 135-156: `_initialize_sensor` wraps the
dispatch in `try/except`; any raised error is logged (`handle_error`) and a
fallback `WebcamSensor(0)` is substituted, so construction always yields a
sensor. -/
def initSensor (camera : CameraArg) (pathExists : Bool) : Sensor :=
  match dispatchSensor camera pathExists with
  | .ok s => s
  | .error _ => .webcam 0

/-- The fields of an `EasySLAM` instance the accessor claims observe: the
optional advanced components created in `__init__` (lines 93-96: present
exactly when the corresponding `enable_*` flag is set) and the current
`map_data`. -/
structure SlamSystem where
  sensor_fusion : Option FusedState
  map_merger : Option Mapper
  map_data : Option Cloud

/-- Translated from `core.py` lines 93-96: construction creates the sensor
fusion and map merging components exactly when their flags are enabled. -/
def mkEasySLAM (enable_sensor_fusion enable_map_merging : Bool)
    (map_data : Option Cloud) : SlamSystem :=
  ⟨if enable_sensor_fusion then some initState else none,
   if enable_map_merging then some emptyMapper else none,
   map_data⟩

/-- Translated from `core.py` lines 448-452: `get_fused_pose` returns the
fusion component's pose when the component exists and `None` otherwise. -/
def get_fused_pose (s : SlamSystem) : Option (V3 ℝ × Quat) :=
  match s.sensor_fusion with
  | some f => some (fused_pose f)
  | none => none

/-- Translated from `core.py` lines 454-458: `get_global_map` returns the
merger's global map when the component exists and the instance's own
`map_data` otherwise. -/
def get_global_map (s : SlamSystem) : Option Cloud :=
  match s.map_merger with
  | some m => some (global_map m)
  | none => s.map_data

/-! ## Helper lemmas -/

@[simp] theorem vadd_v3zero_right {α : Type} [AddMonoid α] (a : V3 α) : vadd a v3zero = a := by
  simp [vadd, v3zero]

@[simp] theorem vscale_v3zero_right (c : ℝ) : vscale c (v3zero : V3 ℝ) = v3zero := by
  simp [vscale, v3zero]

@[simp] theorem vsub_self_v3 (a : V3 ℝ) : vsub a a = v3zero := by
  simp [vsub, v3zero]

theorem quatNormSq_nonneg (a : Quat) : 0 ≤ quatNormSq a := by
  simp only [quatNormSq]
  positivity

theorem quatNormSq_mul (a b : Quat) :
    quatNormSq (quatMul a b) = quatNormSq a * quatNormSq b := by
  simp only [quatNormSq, quatMul]
  ring

theorem quatNormSq_smul (c : ℝ) (a : Quat) :
    quatNormSq (quatSmul c a) = c ^ 2 * quatNormSq a := by
  simp only [quatNormSq, quatSmul]
  ring

theorem quatNormSq_normalizeQ {a : Quat} (h : quatNormSq a ≠ 0) :
    quatNormSq (normalizeQ a) = 1 := by
  have hpos : 0 < quatNormSq a := lt_of_le_of_ne (quatNormSq_nonneg a) (Ne.symm h)
  rw [normalizeQ, quatNormSq_smul, div_pow, one_pow, Real.sq_sqrt hpos.le]
  field_simp

@[simp] theorem quatNormSq_one : quatNormSq quatOne = 1 := by
  simp [quatNormSq, quatOne]

@[simp] theorem quatSmul_one (a : Quat) : quatSmul 1 a = a := by
  simp [quatSmul]

@[simp] theorem normalizeQ_one : normalizeQ quatOne = quatOne := by
  simp [normalizeQ]

@[simp] theorem rotateV_one (v : V3 ℝ) : rotateV quatOne v = v := by
  ext <;> simp [rotateV, quatMul, quatConj, quatOne]

/-! ## C10: accessors with disabled advanced features -/

/-- C10: an `EasySLAM` instance constructed with `enable_sensor_fusion=False`
has no fusion component, so `get_fused_pose()` returns `None` (it neither
raises nor fabricates a pose); one constructed with
`enable_map_merging=False` has no merger, so `get_global_map()` returns the
instance's own `map_data`. -/
theorem accessors_with_disabled_flags (esf emm : Bool) (md md2 : Option Cloud) :
    get_fused_pose (mkEasySLAM false emm md) = none ∧
    get_global_map (mkEasySLAM esf false md2) = md2 :=
  ⟨rfl, rfl⟩

/-! ## C9: unsupported algorithm/sensor names fall back silently -/

/-- C9 counterexample: for the unsupported algorithm name
`"invalid_algorithm"` (and sensor name `"invalid_sensor"`), the inner
dispatch does raise `ValueError`, but initialization catches it and
substitutes the default instance — the constructed result is identical to the
one a caller gets for the supported default request, so no error status is
surfaced at construction time, contrary to the claim. -/
theorem init_invalid_name_silent_fallback_cex :
    dispatchAlgorithm "invalid_algorithm" =
      Except.error "Unsupported algorithm: invalid_algorithm" ∧
    initAlgorithm "invalid_algorithm" = Algorithm.orbslam ∧
    initAlgorithm "invalid_algorithm" = initAlgorithm "orb_slam" ∧
    dispatchSensor (CameraArg.name "invalid_sensor") false =
      Except.error "Unsupported sensor type: invalid_sensor" ∧
    initSensor (CameraArg.name "invalid_sensor") false = Sensor.webcam 0 :=
  ⟨rfl, rfl, rfl, rfl, rfl⟩

/-- C9 (amended): for every algorithm or sensor name outside the supported
set, the dispatch raises an internal `ValueError`, which the constructor
catches (logging via `handle_error`) before silently substituting the default
instance (`ORBSLAM()` / `WebcamSensor(0)`); construction succeeds and no
error status reaches the caller. -/
theorem unsupported_name_caught_default_substituted (aname cam : String)
    (ha : aname ∉ ["orb_slam", "fastslam", "graphslam", "visual_inertial", "rgbd_slam"])
    (hc : cam ∉ ["webcam", "realsense", "stereo", "lidar"]) :
    dispatchAlgorithm aname = Except.error ("Unsupported algorithm: " ++ aname) ∧
    initAlgorithm aname = Algorithm.orbslam ∧
    dispatchSensor (CameraArg.name cam) false =
      Except.error ("Unsupported sensor type: " ++ cam) ∧
    initSensor (CameraArg.name cam) false = Sensor.webcam 0 := by
  simp only [List.mem_cons, List.not_mem_nil, or_false, not_or] at ha hc
  obtain ⟨ha1, ha2, ha3, ha4, ha5⟩ := ha
  obtain ⟨hc1, hc2, hc3, hc4⟩ := hc
  refine ⟨?_, ?_, ?_, ?_⟩ <;>
    simp [dispatchAlgorithm, dispatchSensor, initAlgorithm, initSensor,
      ha1, ha2, ha3, ha4, ha5, hc1, hc2, hc3, hc4]

/-- C9 witness: the amended statement at the concrete unsupported names. -/
theorem unsupported_name_caught_default_substituted_witness :
    dispatchAlgorithm "another_invalid" =
      Except.error ("Unsupported algorithm: " ++ "another_invalid") ∧
    initAlgorithm "another_invalid" = Algorithm.orbslam ∧
    dispatchSensor (CameraArg.name "another_bad_sensor") false =
      Except.error ("Unsupported sensor type: " ++ "another_bad_sensor") ∧
    initSensor (CameraArg.name "another_bad_sensor") false = Sensor.webcam 0 :=
  unsupported_name_caught_default_substituted "another_invalid" "another_bad_sensor"
    (by decide) (by decide)

/-! ## C2: invalid elapsed time makes `add_inertial` a no-op -/

/-- C2: when the elapsed time since the last processed measurement is ≤ 0,
`add_inertial` is a no-op returning the diagnostic flag `false` and leaving
every field of `FusedState` (position, velocity, orientation, uncertainty,
last-update timestamp) unchanged.  (Over the real-number embedding every
value is finite, so the spec's non-finite case has no separate
representative.) -/
theorem add_inertial_invalid_dt_noop (s : FusedState) (omega acc : V3 ℝ) (t : ℝ)
    (hdt : t - s.last_t ≤ 0) :
    add_inertial s omega acc t = (s, false) := by
  simp [add_inertial, hdt]

/-- C2 witness: a measurement whose timestamp does not advance the clock. -/
theorem add_inertial_invalid_dt_noop_witness :
    add_inertial initState v3zero v3zero 0 = (initState, false) :=
  add_inertial_invalid_dt_noop initState v3zero v3zero 0 (by simp [initState])

/-! ## C5: the first session of an empty Mapper -/

/-- C5: `add_session` on a Mapper holding no prior sessions always succeeds
without invoking the Registrar (the first branch of `add_session` performs no
`merge`): the first session defines the global frame, is stored with the
identity alignment transform, and its state is `Registered` immediately. -/
theorem add_session_first_registers_identity (c : Cloud) (tr : List RigidT) :
    (add_session emptyMapper c tr).sessions =
      [⟨c, tr, SessionState.Registered, idT⟩] ∧
    (add_session emptyMapper c tr).globalMap = voxelDown c := by
  simp [add_session, emptyMapper]

/-! ## C1: the orientation stays a unit quaternion -/

/-- C1: the unit-orientation invariant of `FusedState`.  It holds at
construction, and assuming it before a call, after every `add_inertial` and
every `add_visual` call — on any input — the orientation component has unit
norm; in particular `add_visual` re-normalizes the orientation after every
accepted correction, and a rejected call leaves the already-unit orientation
untouched. -/
theorem fuser_orientation_unit (s : FusedState)
    (hq : quatNormSq s.orientation = 1) :
    quatNormSq initState.orientation = 1 ∧
    (∀ (omega acc : V3 ℝ) (t : ℝ),
      quatNormSq ((add_inertial s omega acc t).1.orientation) = 1) ∧
    (∀ (pos : V3 ℝ) (qMeas : Quat),
      quatNormSq ((add_visual s pos qMeas).1.orientation) = 1) := by
  refine ⟨by simp [initState], ?_, ?_⟩
  · intro omega acc t
    by_cases hdt : t - s.last_t ≤ 0
    · simp [add_inertial, hdt, hq]
    · simp only [add_inertial, if_neg hdt]
      apply quatNormSq_normalizeQ
      rw [quatNormSq_mul, hq, one_mul]
      have h1 : (0 : ℝ) <
          quatNormSq ⟨1, omega.x * min (t - s.last_t) dtMax / 2,
            omega.y * min (t - s.last_t) dtMax / 2,
            omega.z * min (t - s.last_t) dtMax / 2⟩ := by
        simp only [quatNormSq]
        positivity
      exact ne_of_gt h1
  · intro pos qMeas
    simp only [add_visual]
    split
    · exact hq
    · split
      · exact hq
      · next h2 => exact quatNormSq_normalizeQ h2

/-- C1 witness: the invariant instantiated at the construction-time state. -/
theorem fuser_orientation_unit_witness :
    quatNormSq initState.orientation = 1 ∧
    (∀ (omega acc : V3 ℝ) (t : ℝ),
      quatNormSq ((add_inertial initState omega acc t).1.orientation) = 1) ∧
    (∀ (pos : V3 ℝ) (qMeas : Quat),
      quatNormSq ((add_visual initState pos qMeas).1.orientation) = 1) :=
  fuser_orientation_unit initState (by simp [initState])

/-! ## C7: static inertial-only sequences leave pose fixed -/

/-- One static inertial step: with zero angular velocity and measured
acceleration equal to the configured gravity (so the world-frame acceleration
after gravity compensation is zero), a state at rest in the identity
orientation stays at its position, at rest, and in the identity
orientation. -/
theorem add_inertial_static_step (s : FusedState) (t : ℝ)
    (hv : s.velocity = v3zero) (ho : s.orientation = quatOne) :
    (add_inertial s v3zero gravity t).1.position = s.position ∧
    (add_inertial s v3zero gravity t).1.velocity = v3zero ∧
    (add_inertial s v3zero gravity t).1.orientation = quatOne := by
  by_cases hdt : t - s.last_t ≤ 0
  · simp [add_inertial, hdt, hv, ho]
  · have hq : (⟨1, (v3zero : V3 ℝ).x * min (t - s.last_t) dtMax / 2,
        (v3zero : V3 ℝ).y * min (t - s.last_t) dtMax / 2,
        (v3zero : V3 ℝ).z * min (t - s.last_t) dtMax / 2⟩ : Quat) = quatOne := by
      simp [v3zero, quatOne]
    simp only [add_inertial, if_neg hdt, hq]
    refine ⟨?_, ?_, ?_⟩
    · simp [hv]
    · have : quatMul quatOne quatOne = quatOne := by
        simp [quatMul, quatOne]
      simp [ho, hv]
    · have hmul : quatMul quatOne quatOne = quatOne := by
        simp [quatMul, quatOne]
      simp [ho, hmul]

/-- Invariant form of the static-sequence property, by induction over the
measurement list. -/
theorem runInertial_static_inv :
    ∀ (L : List InertialMeas) (s : FusedState),
      (∀ m ∈ L, m.omega = v3zero ∧ m.acc = gravity) →
      s.velocity = v3zero → s.orientation = quatOne →
      (runInertial s L).position = s.position ∧
      (runInertial s L).velocity = v3zero ∧
      (runInertial s L).orientation = quatOne
  | [], s, _, hv, ho => by simp [runInertial, hv, ho]
  | m :: rest, s, hL, hv, ho => by
      have hm := hL m (List.mem_cons_self m rest)
      have hrest : ∀ x ∈ rest, x.omega = v3zero ∧ x.acc = gravity :=
        fun x hx => hL x (List.mem_cons_of_mem m hx)
      have hstep := add_inertial_static_step s m.t hv ho
      have hfold : runInertial s (m :: rest) =
          runInertial (add_inertial s v3zero gravity m.t).1 rest := by
        simp [runInertial, hm.1, hm.2]
      rw [hfold]
      have IH := runInertial_static_inv rest (add_inertial s v3zero gravity m.t).1
        hrest hstep.2.1 hstep.2.2
      exact ⟨IH.1.trans hstep.1, IH.2.1, IH.2.2⟩

/-- C7: feeding the Fuser any sequence of inertial-only measurements with
zero angular velocity and linear acceleration equal to the configured gravity
(gravity-compensated zero world acceleration in the identity orientation the
state keeps throughout), the fused position and orientation after the whole
sequence equal their initial values. -/
theorem inertial_static_sequence_fixed (L : List InertialMeas)
    (hL : ∀ m ∈ L, m.omega = v3zero ∧ m.acc = gravity) :
    (runInertial initState L).position = initState.position ∧
    (runInertial initState L).orientation = initState.orientation := by
  have h := runInertial_static_inv L initState hL rfl rfl
  exact ⟨h.1, h.2.2⟩

/-- C7 witness: a two-measurement static sequence. -/
theorem inertial_static_sequence_fixed_witness :
    (runInertial initState [⟨1, v3zero, gravity⟩, ⟨2, v3zero, gravity⟩]).position =
      initState.position ∧
    (runInertial initState [⟨1, v3zero, gravity⟩, ⟨2, v3zero, gravity⟩]).orientation =
      initState.orientation :=
  inertial_static_sequence_fixed [⟨1, v3zero, gravity⟩, ⟨2, v3zero, gravity⟩]
    (by simp)

/-! ## Registration helper lemmas -/

theorem distSq_nonneg (a b : V3 ℚ) : 0 ≤ distSq a b := by
  simp only [distSq]
  positivity

@[simp] theorem distSq_self (a : V3 ℚ) : distSq a a = 0 := by
  simp [distSq]

theorem distSq_eq_zero {a b : V3 ℚ} (h : distSq a b = 0) : a = b := by
  simp only [distSq] at h
  have hx : (a.x - b.x) ^ 2 = 0 := by nlinarith [sq_nonneg (a.y - b.y), sq_nonneg (a.z - b.z)]
  have hy : (a.y - b.y) ^ 2 = 0 := by nlinarith [sq_nonneg (a.x - b.x), sq_nonneg (a.z - b.z)]
  have hz : (a.z - b.z) ^ 2 = 0 := by nlinarith [sq_nonneg (a.x - b.x), sq_nonneg (a.y - b.y)]
  ext
  · linarith [pow_eq_zero_iff (n := 2) (by norm_num) |>.1 hx]
  · linarith [pow_eq_zero_iff (n := 2) (by norm_num) |>.1 hy]
  · linarith [pow_eq_zero_iff (n := 2) (by norm_num) |>.1 hz]

theorem nearestAux_zero_stays (p : V3 ℚ) :
    ∀ (l : Cloud) (b : V3 ℚ), distSq p b = 0 → nearestAux p l (some b) = some b
  | [], b, _ => rfl
  | q :: rest, b, hb => by
      rw [nearestAux]
      have hlt : ¬ distSq p q < distSq p b := by
        rw [hb]
        exact not_lt.2 (distSq_nonneg p q)
      rw [if_neg hlt]
      exact nearestAux_zero_stays p rest b hb

theorem nearestAux_mem_zero (p : V3 ℚ) :
    ∀ (l : Cloud) (acc : Option (V3 ℚ)),
      (p ∈ l ∨ ∃ b, acc = some b ∧ distSq p b = 0) →
      ∃ c, nearestAux p l acc = some c ∧ distSq p c = 0
  | [], acc, h => by
      rcases h with h | ⟨b, rfl, hb⟩
      · exact absurd h (List.not_mem_nil p)
      · exact ⟨b, rfl, hb⟩
  | q :: rest, none, h => by
      rw [nearestAux]
      rcases h with h | ⟨b, hb, _⟩
      · rcases List.mem_cons.1 h with rfl | hmem
        · exact nearestAux_mem_zero p rest (some p) (Or.inr ⟨p, rfl, distSq_self p⟩)
        · exact nearestAux_mem_zero p rest (some q) (Or.inl hmem)
      · cases hb
  | q :: rest, some b, h => by
      rw [nearestAux]
      rcases h with h | ⟨b2, hb2, hdist⟩
      · rcases List.mem_cons.1 h with rfl | hmem
        · by_cases hlt : distSq p p < distSq p b
          · rw [if_pos hlt]
            exact nearestAux_mem_zero p rest (some p) (Or.inr ⟨p, rfl, distSq_self p⟩)
          · rw [if_neg hlt]
            have hb0 : distSq p b = 0 := by
              have h1 := not_lt.1 hlt
              rw [distSq_self] at h1
              exact le_antisymm h1 (distSq_nonneg p b)
            exact nearestAux_mem_zero p rest (some b) (Or.inr ⟨b, rfl, hb0⟩)
        · split
          · exact nearestAux_mem_zero p rest (some q) (Or.inl hmem)
          · exact nearestAux_mem_zero p rest (some b) (Or.inl hmem)
      · obtain rfl := Option.some.inj hb2
        have hlt : ¬ distSq p q < distSq p b := by
          rw [hdist]
          exact not_lt.2 (distSq_nonneg p q)
        rw [if_neg hlt]
        exact ⟨b, nearestAux_zero_stays p rest b hdist, hdist⟩

/-- A point of the target is its own nearest neighbor (up to coordinate
equality). -/
theorem nearest_self {p : V3 ℚ} {l : Cloud} (h : p ∈ l) : nearest p l = some p := by
  obtain ⟨c, hc, hc0⟩ := nearestAux_mem_zero p l none (Or.inl h)
  rw [nearest, hc, distSq_eq_zero hc0]

/-- When every source point also lies in the target, the correspondence list
pairs each source point with itself. -/
theorem correspondences_selfpairs :
    ∀ (src : Cloud) (tgt : Cloud) (mds : ℚ), (∀ p ∈ src, p ∈ tgt) → 0 ≤ mds →
      correspondences src tgt mds = src.map (fun p => (p, p))
  | [], _, _, _, _ => rfl
  | p :: rest, tgt, mds, hsub, hm => by
      have hp : p ∈ tgt := hsub p (List.mem_cons_self p rest)
      have hrest : ∀ q ∈ rest, q ∈ tgt := fun q hq => hsub q (List.mem_cons_of_mem p hq)
      simp only [correspondences, List.filterMap_cons, nearest_self hp, distSq_self,
        if_pos hm, List.map_cons]
      exact congrArg _ (correspondences_selfpairs rest tgt mds hrest hm)

/-! ## C3: the Registrar's failure policy -/

/-- C3: whenever the initial correspondence count after downsampling is below
the minimum threshold, or the final registration quality exceeds the
rejection bound, `merge` fails: it returns the reference cloud unchanged, the
identity transform, and the validity flag marking the result invalid.  (Two
clouds with zero spatial overlap produce no correspondence within the maximum
distance, hence fall under the first disjunct — the witness instantiates
exactly that scenario.) -/
theorem merge_failure_policy (ref inc : Cloud)
    (h : initialCorrCount ref inc < minCorr ∨
         rejectBound < registrationQuality ref inc) :
    (merge ref inc).cloud = ref ∧ (merge ref inc).transform = idT ∧
    (merge ref inc).success = false := by
  unfold merge
  by_cases h1 : initialCorrCount ref inc < minCorr
  · rw [if_pos h1]
    exact ⟨rfl, rfl, rfl⟩
  · rcases h with h2 | h2
    · exact absurd h2 h1
    · rw [if_neg h1, if_pos h2]
      exact ⟨rfl, rfl, rfl⟩

/-- C3 witness: two singleton clouds 5 units apart (zero spatial overlap at
correspondence radius 1) make registration fail with the reference unchanged,
identity transform and invalid flag. -/
theorem merge_failure_policy_witness :
    (merge [⟨0, 0, 0⟩] [⟨5, 0, 0⟩]).cloud = [⟨0, 0, 0⟩] ∧
    (merge [⟨0, 0, 0⟩] [⟨5, 0, 0⟩]).transform = idT ∧
    (merge [⟨0, 0, 0⟩] [⟨5, 0, 0⟩]).success = false :=
  merge_failure_policy [⟨0, 0, 0⟩] [⟨5, 0, 0⟩] (Or.inl (by
    simp [initialCorrCount, correspondences, voxelDown, voxelDownAux, nearest,
      nearestAux, distSq, maxDistSq0, minCorr]))

/-! ## Voxel-downsampling lemmas -/

theorem voxelDownAux_fuel : ∀ (n : ℕ) (l : Cloud), l.length ≤ n → voxelDownAux n l = voxelDown l
  | n, [], _ => by cases n <;> rfl
  | 0, p :: rest, h => by simp at h
  | n + 1, p :: rest, h => by
      have hn : rest.length ≤ n := Nat.succ_le_succ_iff.1 (by simpa using h)
      have hfl : (rest.filter fun q => decide (cellOf q ≠ cellOf p)).length ≤ n :=
        le_trans (List.length_filter_le _ _) hn
      have hfr : (rest.filter fun q => decide (cellOf q ≠ cellOf p)).length ≤ rest.length :=
        List.length_filter_le _ _
      show p :: voxelDownAux n _ = voxelDown (p :: rest)
      rw [voxelDownAux_fuel n _ hfl]
      show _ = voxelDownAux (p :: rest).length (p :: rest)
      rw [List.length_cons]
      show (_ : Cloud) = p :: voxelDownAux rest.length _
      rw [voxelDownAux_fuel rest.length _ hfr]

@[simp] theorem voxelDown_nil : voxelDown ([] : Cloud) = [] := rfl

theorem voxelDown_cons (p : V3 ℚ) (rest : Cloud) :
    voxelDown (p :: rest) =
      p :: voxelDown (rest.filter fun q => decide (cellOf q ≠ cellOf p)) := by
  show voxelDownAux (p :: rest).length (p :: rest) = _
  rw [List.length_cons]
  show p :: voxelDownAux rest.length _ = _
  rw [voxelDownAux_fuel rest.length _ (List.length_filter_le _ _)]

theorem voxelDown_ne_nil {c : Cloud} (hc : c ≠ []) : voxelDown c ≠ [] := by
  cases c with
  | nil => exact absurd rfl hc
  | cons p rest =>
      rw [voxelDown_cons]
      exact List.cons_ne_nil _ _

/-! ## Self-registration algebra -/

theorem sum_map_zero_rat (l : Cloud) : (l.map fun _ => (0 : ℚ)).sum = 0 := by
  induction l with
  | nil => rfl
  | cons p rest ih => simp [ih]

theorem estimateT_selfpairs (l : Cloud) : estimateT (l.map fun p => (p, p)) = idT := by
  have h1 : ((l.map fun p => (p, p)).map Prod.snd) = l := by
    rw [List.map_map]
    exact List.map_id l
  have h2 : ((l.map fun p => (p, p)).map Prod.fst) = l := by
    rw [List.map_map]
    exact List.map_id l
  have h3 : vsub (sumV l) (sumV l) = v3zero := by
    ext <;> simp [vsub, v3zero]
  simp only [estimateT, h1, h2, h3, idT]
  have h4 : vscale (1 / (((l.map fun p => (p, p)).length : ℕ) : ℚ)) (v3zero : V3 ℚ) = v3zero := by
    ext <;> simp [vscale, v3zero]
  rw [h4]

theorem sum_distSq_selfpairs (l : Cloud) :
    ((l.map fun p => (p, p)).map fun pr => distSq pr.1 pr.2).sum = 0 := by
  induction l with
  | nil => rfl
  | cons p rest ih => simp only [List.map_cons, List.sum_cons, distSq_self, ih, zero_add]

theorem meanSqDist_selfpairs (l : Cloud) : meanSqDist (l.map fun p => (p, p)) = 0 := by
  rw [meanSqDist, sum_distSq_selfpairs, zero_div]

theorem qualityOf_selfpairs (d : Cloud) (mds : ℚ) (hm : 0 ≤ mds) :
    qualityOf d d mds = 0 := by
  have hcorr := correspondences_selfpairs d d mds (fun p h => h) hm
  simp only [qualityOf, hcorr, meanSqDist_selfpairs, List.length_map, Nat.sub_self,
    Nat.cast_zero, zero_div, max_self]
  split <;> rfl

theorem mat3Apply_id (v : V3 ℚ) : mat3Apply idMat3 v = v := by
  ext <;> simp [mat3Apply, idMat3]

theorem applyT_idT (p : V3 ℚ) : applyT idT p = p := by
  simp [applyT, idT, mat3Apply_id]

theorem map_applyT_idT (l : Cloud) : l.map (applyT idT) = l := by
  have h : applyT idT = id := funext applyT_idT
  rw [h, List.map_id]

theorem mat3Mul_id_left (A : Mat3 ℚ) : mat3Mul idMat3 A = A := by
  ext <;> simp [mat3Mul, idMat3]

theorem composeT_idT_idT : composeT idT idT = idT := by
  simp [composeT, idT, mat3Mul_id_left, mat3Apply_id, vadd, v3zero]

theorem icpLoop_selfclouds (n : ℕ) (d : Cloud) (hd : d ≠ []) (mds : ℚ) (hm : 0 ≤ mds) :
    icpLoop (n + 2) d d idT mds none = (idT, d, 0) := by
  have hm2 : (0 : ℚ) ≤ mds / 2 := by positivity
  have hcorr := correspondences_selfpairs d d mds (fun p h => h) hm
  have hcorr2 := correspondences_selfpairs d d (mds / 2) (fun p h => h) hm2
  have hlen : ¬ (d.length < minCorr) := by
    simp [minCorr, Nat.lt_one_iff, List.length_eq_zero, hd]
  have hq2 := qualityOf_selfpairs d (mds / 2) hm2
  have heps : |(0 : ℚ) - 0| < convEps := by simp [convEps]
  have hce : ¬ convEps ≤ 0 := by norm_num [convEps]
  simp [icpLoop, hcorr, hcorr2, List.length_map, hlen, estimateT_selfpairs,
    map_applyT_idT, composeT_idT_idT, meanSqDist_selfpairs, heps, hq2, hce]

theorem meanSqDist_nonneg (corr : List (V3 ℚ × V3 ℚ)) : 0 ≤ meanSqDist corr := by
  apply div_nonneg _ (Nat.cast_nonneg _)
  apply List.sum_nonneg
  intro x hx
  obtain ⟨pr, _, rfl⟩ := List.mem_map.1 hx
  exact distSq_nonneg _ _

theorem qualityOf_nonneg (w t : Cloud) (mds : ℚ) : 0 ≤ qualityOf w t mds := by
  rw [qualityOf]
  split
  · exact le_refl 0
  · exact le_max_of_le_left (meanSqDist_nonneg _)

theorem icpLoop_quality_nonneg :
    ∀ (fuel : ℕ) (w t : Cloud) (acc : RigidT) (mds : ℚ) (prev : Option ℚ),
      0 ≤ (icpLoop fuel w t acc mds prev).2.2
  | 0, w, t, acc, mds, prev => qualityOf_nonneg w t mds
  | n + 1, w, t, acc, mds, prev => by
      simp only [icpLoop]
      split
      · exact qualityOf_nonneg w t mds
      · split
        · split
          · exact qualityOf_nonneg _ _ _
          · exact icpLoop_quality_nonneg n _ _ _ _ _
        · exact icpLoop_quality_nonneg n _ _ _ _ _

theorem registrationQuality_nonneg (ref inc : Cloud) : 0 ≤ registrationQuality ref inc :=
  icpLoop_quality_nonneg maxIter (voxelDown inc) (voxelDown ref) idT maxDistSq0 none

/-! ## C6: registering a cloud against itself -/

/-- C6: merging any non-empty cloud against an identical copy of itself
succeeds with exactly the identity transform and quality exactly `0`, the
best possible value (the final conjunct shows every registration quality is
bounded below by `0`). -/
theorem merge_self_identity_best (c : Cloud) (hc : c ≠ []) :
    (merge c c).success = true ∧ (merge c c).transform = idT ∧
    (merge c c).quality = 0 ∧
    (∀ ref inc : Cloud, 0 ≤ registrationQuality ref inc) := by
  have hd : voxelDown c ≠ [] := voxelDown_ne_nil hc
  have hicp : icpResult c c = (idT, voxelDown c, 0) := by
    rw [icpResult, show maxIter = 28 + 2 from rfl]
    exact icpLoop_selfclouds 28 (voxelDown c) hd maxDistSq0 (by norm_num [maxDistSq0])
  have hcount : ¬ (initialCorrCount c c < minCorr) := by
    rw [initialCorrCount,
      correspondences_selfpairs _ _ _ (fun p h => h) (by norm_num [maxDistSq0]),
      List.length_map]
    simp [minCorr, Nat.lt_one_iff, List.length_eq_zero, hd]
  have hqual : registrationQuality c c = 0 := by
    rw [registrationQuality, hicp]
  have hbound : ¬ (rejectBound < registrationQuality c c) := by
    rw [hqual]
    norm_num [rejectBound]
  rw [merge, if_neg hcount, if_neg hbound]
  refine ⟨rfl, ?_, hqual, fun ref inc => registrationQuality_nonneg ref inc⟩
  show (icpResult c c).1 = idT
  rw [hicp]

/-- C6 witness: a singleton cloud registered against itself. -/
theorem merge_self_identity_best_witness :
    (merge [⟨0, 0, 0⟩] [⟨0, 0, 0⟩]).success = true ∧
    (merge [⟨0, 0, 0⟩] [⟨0, 0, 0⟩]).transform = idT ∧
    (merge [⟨0, 0, 0⟩] [⟨0, 0, 0⟩]).quality = 0 ∧
    (∀ ref inc : Cloud, 0 ≤ registrationQuality ref inc) :=
  merge_self_identity_best [⟨0, 0, 0⟩] (by simp)

/-! ## Cell-counting lemmas for the global map -/

@[simp] theorem cellFinset_nil : cellFinset [] = ∅ := by
  simp [cellFinset]

theorem cellFinset_cons (p : V3 ℚ) (l : Cloud) :
    cellFinset (p :: l) = insert (cellOf p) (cellFinset l) := by
  simp [cellFinset]

theorem cellFinset_filter_ne (p : V3 ℚ) (l : Cloud) :
    cellFinset (l.filter fun q => decide (cellOf q ≠ cellOf p)) =
      (cellFinset l).erase (cellOf p) := by
  ext c
  simp only [cellFinset, List.mem_toFinset, List.mem_map, List.mem_filter,
    Finset.mem_erase, decide_eq_true_eq]
  constructor
  · rintro ⟨a, ⟨hal, hane⟩, rfl⟩
    exact ⟨hane, a, hal, rfl⟩
  · rintro ⟨hne, a, hal, rfl⟩
    exact ⟨a, ⟨hal, hne⟩, rfl⟩

theorem voxelDown_length_card :
    ∀ (n : ℕ) (l : Cloud), l.length ≤ n → (voxelDown l).length = (cellFinset l).card
  | _, [], _ => by simp
  | 0, p :: rest, h => by simp at h
  | n + 1, p :: rest, h => by
      have hn : rest.length ≤ n := Nat.succ_le_succ_iff.1 (by simpa using h)
      have hfl : (rest.filter fun q => decide (cellOf q ≠ cellOf p)).length ≤ n :=
        le_trans (List.length_filter_le _ _) hn
      rw [voxelDown_cons, List.length_cons, voxelDown_length_card n _ hfl,
        cellFinset_filter_ne, cellFinset_cons]
      by_cases hmem : cellOf p ∈ cellFinset rest
      · rw [Finset.card_erase_add_one hmem, Finset.insert_eq_self.2 hmem]
      · rw [Finset.erase_eq_of_not_mem hmem, Finset.card_insert_of_not_mem hmem]

theorem voxelDown_cellFinset :
    ∀ (n : ℕ) (l : Cloud), l.length ≤ n → cellFinset (voxelDown l) = cellFinset l
  | _, [], _ => by simp
  | 0, p :: rest, h => by simp at h
  | n + 1, p :: rest, h => by
      have hn : rest.length ≤ n := Nat.succ_le_succ_iff.1 (by simpa using h)
      have hfl : (rest.filter fun q => decide (cellOf q ≠ cellOf p)).length ≤ n :=
        le_trans (List.length_filter_le _ _) hn
      rw [voxelDown_cons, cellFinset_cons, voxelDown_cellFinset n _ hfl,
        cellFinset_filter_ne, cellFinset_cons]
      ext x
      simp only [Finset.mem_insert, Finset.mem_erase]
      tauto

theorem IsDownsampled.length_eq {g : Cloud} (h : IsDownsampled g) :
    g.length = (cellFinset g).card := by
  obtain ⟨l, rfl⟩ := h
  rw [voxelDown_length_card l.length l le_rfl, voxelDown_cellFinset l.length l le_rfl]

theorem cellFinset_append (g w : Cloud) :
    cellFinset (g ++ w) = cellFinset g ∪ cellFinset w := by
  simp [cellFinset]

theorem length_le_voxelDown_append (g w : Cloud) (hg : IsDownsampled g) :
    g.length ≤ (voxelDown (g ++ w)).length := by
  rw [voxelDown_length_card (g ++ w).length _ le_rfl, cellFinset_append, hg.length_eq]
  exact Finset.card_le_card Finset.subset_union_left

theorem merge_success_cloud {ref inc : Cloud} (h : (merge ref inc).success = true) :
    (merge ref inc).cloud = voxelDown (ref ++ (icpResult ref inc).2.1) := by
  by_cases h1 : initialCorrCount ref inc < minCorr
  · rw [merge, if_pos h1] at h
    cases h
  · by_cases h2 : rejectBound < registrationQuality ref inc
    · rw [merge, if_neg h1, if_pos h2] at h
      cases h
    · rw [merge, if_neg h1, if_neg h2]

/-! ## C4: failed registration leaves the global map unchanged -/

/-- C4: for a well-formed Mapper (downsampled global map; no-session Mapper
has an empty map), `add_session` has the frame property: when the Mapper
already holds sessions and registration of the new session fails, the session
is retained at the end of the collection marked `Rejected` and `GlobalMap` is
exactly unchanged; `GlobalMap`'s size never shrinks on any call; and any call
that changes `GlobalMap` is either the first session or a successful
registration — `GlobalMap` is mutated only by successful registration
(`add_session` provides no re-initialization path). -/
theorem add_session_reject_frame (m : Mapper) (c : Cloud) (tr : List RigidT)
    (hds : IsDownsampled m.globalMap)
    (hemp : m.sessions = [] → m.globalMap = []) :
    ((m.sessions ≠ [] ∧ (merge m.globalMap c).success = false) →
      (add_session m c tr).globalMap = m.globalMap ∧
      (add_session m c tr).sessions =
        m.sessions ++ [⟨c, tr, SessionState.Rejected, idT⟩]) ∧
    m.globalMap.length ≤ (add_session m c tr).globalMap.length ∧
    ((add_session m c tr).globalMap ≠ m.globalMap →
      m.sessions = [] ∨ (merge m.globalMap c).success = true) := by
  by_cases hse : m.sessions.isEmpty = true
  · have hnil : m.sessions = [] := List.isEmpty_iff.1 hse
    refine ⟨fun hne => absurd hnil hne.1, ?_, fun _ => Or.inl hnil⟩
    rw [hemp hnil]
    exact Nat.zero_le _
  · have hse2 : m.sessions.isEmpty = false := by
      revert hse
      cases m.sessions.isEmpty <;> simp
    by_cases hsucc : (merge m.globalMap c).success = true
    · have hglobal : (add_session m c tr).globalMap = (merge m.globalMap c).cloud := by
        simp [add_session, hse2, hsucc]
      refine ⟨fun hpair => ?_, ?_, fun _ => Or.inr hsucc⟩
      · rw [hsucc] at hpair
        cases hpair.2
      · rw [hglobal, merge_success_cloud hsucc]
        exact length_le_voxelDown_append _ _ hds
    · have hf : (merge m.globalMap c).success = false := by
        revert hsucc
        cases (merge m.globalMap c).success <;> simp
      have hadd : add_session m c tr =
          { sessions := m.sessions ++ [⟨c, tr, SessionState.Rejected, idT⟩],
            globalMap := m.globalMap } := by
        simp [add_session, hse2, hf]
      refine ⟨fun _ => ?_, ?_, fun hc => ?_⟩
      · rw [hadd]
        exact ⟨rfl, rfl⟩
      · rw [hadd]
      · rw [hadd] at hc
        exact absurd rfl hc

/-- C4 witness: the frame theorem instantiated at a concrete one-session
Mapper and a cloud whose registration fails. -/
theorem add_session_reject_frame_witness :
    ((demoMapper.sessions ≠ [] ∧ (merge demoMapper.globalMap demoFarCloud).success = false) →
      (add_session demoMapper demoFarCloud []).globalMap = demoMapper.globalMap ∧
      (add_session demoMapper demoFarCloud []).sessions =
        demoMapper.sessions ++ [⟨demoFarCloud, [], SessionState.Rejected, idT⟩]) ∧
    demoMapper.globalMap.length ≤ (add_session demoMapper demoFarCloud []).globalMap.length ∧
    ((add_session demoMapper demoFarCloud []).globalMap ≠ demoMapper.globalMap →
      demoMapper.sessions = [] ∨ (merge demoMapper.globalMap demoFarCloud).success = true) :=
  add_session_reject_frame demoMapper demoFarCloud []
    ⟨[⟨0, 0, 0⟩], rfl⟩ (by simp [demoMapper])

/-! ## C8: correctness of the rotation-matrix-to-quaternion conversion -/

theorem quatRot_smul (c : ℝ) (p : Quat) :
    quatRot (quatSmul c p) = mat3Scale (c ^ 2) (quatRot p) := by
  ext <;> simp only [quatRot, quatSmul, mat3Scale] <;> ring

theorem mat3Scale_one (A : Mat3 ℝ) : mat3Scale 1 A = A := by
  ext <;> simp [mat3Scale]

theorem div_abs_sq {a : ℝ} (ha : a ≠ 0) : (a / |a|) ^ 2 = 1 := by
  rw [div_pow, sq_abs]
  exact div_self (pow_ne_zero 2 ha)

theorem m2q_branch1 (p : Quat) (hn : quatNormSq p = 1)
    (h1 : 0 < trace3 (quatRot p)) :
    ∃ e : ℝ, e ^ 2 = 1 ∧ matrix_to_quaternion (quatRot p) = quatSmul e p ∧
      0 < m2qS (quatRot p) := by
  have hn' : p.w ^ 2 + p.x ^ 2 + p.y ^ 2 + p.z ^ 2 = 1 := by
    simpa [quatNormSq] using hn
  have htr : trace3 (quatRot p) + 1 = (2 * p.w) ^ 2 := by
    simp only [trace3, quatRot]
    linear_combination -hn'
  have hw : p.w ≠ 0 := by
    intro h0
    rw [h0] at htr
    norm_num at htr
    linarith
  have habs : |p.w| ≠ 0 := abs_ne_zero.2 hw
  have habspos : 0 < |p.w| := abs_pos.2 hw
  have hww : |p.w| ^ 2 = p.w ^ 2 := sq_abs p.w
  have hs : Real.sqrt (trace3 (quatRot p) + 1) = 2 * |p.w| := by
    rw [htr, show ((2 : ℝ) * p.w) ^ 2 = (2 * |p.w|) ^ 2 by rw [mul_pow, mul_pow, sq_abs]]
    exact Real.sqrt_sq (by positivity)
  refine ⟨p.w / |p.w|, div_abs_sq hw, ?_, ?_⟩
  · simp only [matrix_to_quaternion]
    rw [if_pos h1, hs]
    apply Quat.ext <;> simp only [quatSmul, quatRot] <;> field_simp <;>
      first
        | linear_combination hww
        | ring
  · simp only [m2qS]
    rw [if_pos h1, hs]
    linarith

theorem m2q_branch2 (p : Quat) (hn : quatNormSq p = 1)
    (h1 : ¬ 0 < trace3 (quatRot p))
    (h2 : (quatRot p).m00 > (quatRot p).m11 ∧ (quatRot p).m00 > (quatRot p).m22) :
    ∃ e : ℝ, e ^ 2 = 1 ∧ matrix_to_quaternion (quatRot p) = quatSmul e p ∧
      0 < m2qS (quatRot p) := by
  have hn' : p.w ^ 2 + p.x ^ 2 + p.y ^ 2 + p.z ^ 2 = 1 := by
    simpa [quatNormSq] using hn
  have hxy : p.y ^ 2 < p.x ^ 2 := by
    have h := h2.1
    simp only [quatRot] at h
    nlinarith
  have hx : p.x ≠ 0 := by
    intro h0
    rw [h0] at hxy
    simp at hxy
    exact absurd hxy (not_lt.2 (sq_nonneg p.y))
  have habs : |p.x| ≠ 0 := abs_ne_zero.2 hx
  have habspos : 0 < |p.x| := abs_pos.2 hx
  have hxx : |p.x| ^ 2 = p.x ^ 2 := sq_abs p.x
  have hsq : 1 + (quatRot p).m00 - (quatRot p).m11 - (quatRot p).m22 = (2 * p.x) ^ 2 := by
    simp only [quatRot]
    linear_combination -hn'
  have hs : Real.sqrt (1 + (quatRot p).m00 - (quatRot p).m11 - (quatRot p).m22) = 2 * |p.x| := by
    rw [hsq, show ((2 : ℝ) * p.x) ^ 2 = (2 * |p.x|) ^ 2 by rw [mul_pow, mul_pow, sq_abs]]
    exact Real.sqrt_sq (by positivity)
  refine ⟨p.x / |p.x|, div_abs_sq hx, ?_, ?_⟩
  · simp only [matrix_to_quaternion]
    rw [if_neg h1, if_pos h2, hs]
    apply Quat.ext <;> simp only [quatSmul, quatRot] <;> field_simp <;>
      first
        | linear_combination hxx
        | ring
  · simp only [m2qS]
    rw [if_neg h1, if_pos h2, hs]
    linarith

theorem m2q_branch3 (p : Quat) (hn : quatNormSq p = 1)
    (h1 : ¬ 0 < trace3 (quatRot p))
    (h2 : ¬ ((quatRot p).m00 > (quatRot p).m11 ∧ (quatRot p).m00 > (quatRot p).m22))
    (h3 : (quatRot p).m11 > (quatRot p).m22) :
    ∃ e : ℝ, e ^ 2 = 1 ∧ matrix_to_quaternion (quatRot p) = quatSmul e p ∧
      0 < m2qS (quatRot p) := by
  have hn' : p.w ^ 2 + p.x ^ 2 + p.y ^ 2 + p.z ^ 2 = 1 := by
    simpa [quatNormSq] using hn
  have hzy : p.z ^ 2 < p.y ^ 2 := by
    simp only [quatRot] at h3
    nlinarith
  have hy : p.y ≠ 0 := by
    intro h0
    rw [h0] at hzy
    simp at hzy
    exact absurd hzy (not_lt.2 (sq_nonneg p.z))
  have habs : |p.y| ≠ 0 := abs_ne_zero.2 hy
  have habspos : 0 < |p.y| := abs_pos.2 hy
  have hyy : |p.y| ^ 2 = p.y ^ 2 := sq_abs p.y
  have hsq : 1 + (quatRot p).m11 - (quatRot p).m00 - (quatRot p).m22 = (2 * p.y) ^ 2 := by
    simp only [quatRot]
    linear_combination -hn'
  have hs : Real.sqrt (1 + (quatRot p).m11 - (quatRot p).m00 - (quatRot p).m22) = 2 * |p.y| := by
    rw [hsq, show ((2 : ℝ) * p.y) ^ 2 = (2 * |p.y|) ^ 2 by rw [mul_pow, mul_pow, sq_abs]]
    exact Real.sqrt_sq (by positivity)
  refine ⟨p.y / |p.y|, div_abs_sq hy, ?_, ?_⟩
  · simp only [matrix_to_quaternion]
    rw [if_neg h1, if_neg h2, if_pos h3, hs]
    apply Quat.ext <;> simp only [quatSmul, quatRot] <;> field_simp <;>
      first
        | linear_combination hyy
        | ring
  · simp only [m2qS]
    rw [if_neg h1, if_neg h2, if_pos h3, hs]
    linarith

theorem m2q_branch4 (p : Quat) (hn : quatNormSq p = 1)
    (h1 : ¬ 0 < trace3 (quatRot p))
    (h2 : ¬ ((quatRot p).m00 > (quatRot p).m11 ∧ (quatRot p).m00 > (quatRot p).m22))
    (h3 : ¬ (quatRot p).m11 > (quatRot p).m22) :
    ∃ e : ℝ, e ^ 2 = 1 ∧ matrix_to_quaternion (quatRot p) = quatSmul e p ∧
      0 < m2qS (quatRot p) := by
  have hn' : p.w ^ 2 + p.x ^ 2 + p.y ^ 2 + p.z ^ 2 = 1 := by
    simpa [quatNormSq] using hn
  have hz : p.z ≠ 0 := by
    intro h0
    have h3' : (quatRot p).m11 ≤ (quatRot p).m22 := not_lt.1 h3
    simp only [quatRot] at h3'
    have hy2 : p.y ^ 2 ≤ 0 := by nlinarith
    have hy : p.y = 0 :=
      pow_eq_zero_iff (n := 2) (by norm_num) |>.1 (le_antisymm hy2 (sq_nonneg p.y))
    have hx : p.x = 0 := by
      rcases not_and_or.1 h2 with h | h
      · have h' := not_lt.1 h
        simp only [quatRot] at h'
        have hx2 : p.x ^ 2 ≤ 0 := by nlinarith
        exact pow_eq_zero_iff (n := 2) (by norm_num) |>.1 (le_antisymm hx2 (sq_nonneg p.x))
      · have h' := not_lt.1 h
        simp only [quatRot] at h'
        have hx2 : p.x ^ 2 ≤ 0 := by nlinarith
        exact pow_eq_zero_iff (n := 2) (by norm_num) |>.1 (le_antisymm hx2 (sq_nonneg p.x))
    have h1' := not_lt.1 h1
    simp only [trace3, quatRot] at h1'
    nlinarith
  have habs : |p.z| ≠ 0 := abs_ne_zero.2 hz
  have habspos : 0 < |p.z| := abs_pos.2 hz
  have hzz : |p.z| ^ 2 = p.z ^ 2 := sq_abs p.z
  have hsq : 1 + (quatRot p).m22 - (quatRot p).m00 - (quatRot p).m11 = (2 * p.z) ^ 2 := by
    simp only [quatRot]
    linear_combination -hn'
  have hs : Real.sqrt (1 + (quatRot p).m22 - (quatRot p).m00 - (quatRot p).m11) = 2 * |p.z| := by
    rw [hsq, show ((2 : ℝ) * p.z) ^ 2 = (2 * |p.z|) ^ 2 by rw [mul_pow, mul_pow, sq_abs]]
    exact Real.sqrt_sq (by positivity)
  refine ⟨p.z / |p.z|, div_abs_sq hz, ?_, ?_⟩
  · simp only [matrix_to_quaternion]
    rw [if_neg h1, if_neg h2, if_neg h3, hs]
    apply Quat.ext <;> simp only [quatSmul, quatRot] <;> field_simp <;>
      first
        | linear_combination hzz
        | ring
  · simp only [m2qS]
    rw [if_neg h1, if_neg h2, if_neg h3, hs]
    linarith

/-- C8: for every proper rotation matrix `R` — i.e., the rotation matrix of a
unit quaternion `p`; unit quaternions cover exactly the proper rotations —
the four-branch conversion of `core.py` is safe and correct: the branch taken
divides by a strictly positive `S` (so there is no division by zero; the four
`if/elif/else` branches are exhaustive and mutually exclusive by the
definition's structure, so exactly one is taken), and the returned quaternion
has unit norm and represents exactly the rotation `R` — including rotations
near ±180°, which fall into the non-positive-trace branches. -/
theorem matrix_to_quaternion_correct (p : Quat) (R : Mat3 ℝ)
    (hn : quatNormSq p = 1) (hR : R = quatRot p) :
    0 < m2qS R ∧ quatNormSq (matrix_to_quaternion R) = 1 ∧
    quatRot (matrix_to_quaternion R) = R := by
  subst hR
  have hbr : ∃ e : ℝ, e ^ 2 = 1 ∧ matrix_to_quaternion (quatRot p) = quatSmul e p ∧
      0 < m2qS (quatRot p) := by
    by_cases h1 : 0 < trace3 (quatRot p)
    · exact m2q_branch1 p hn h1
    · by_cases h2 : (quatRot p).m00 > (quatRot p).m11 ∧ (quatRot p).m00 > (quatRot p).m22
      · exact m2q_branch2 p hn h1 h2
      · by_cases h3 : (quatRot p).m11 > (quatRot p).m22
        · exact m2q_branch3 p hn h1 h2 h3
        · exact m2q_branch4 p hn h1 h2 h3
  obtain ⟨e, he, heq, hpos⟩ := hbr
  refine ⟨hpos, ?_, ?_⟩
  · rw [heq, quatNormSq_smul, he, one_mul, hn]
  · rw [heq, quatRot_smul, he, mat3Scale_one]

/-- C8 witness: the conversion applied to the rotation matrix of the identity
quaternion. -/
theorem matrix_to_quaternion_correct_witness :
    0 < m2qS (quatRot quatOne) ∧
    quatNormSq (matrix_to_quaternion (quatRot quatOne)) = 1 ∧
    quatRot (matrix_to_quaternion (quatRot quatOne)) = quatRot quatOne :=
  matrix_to_quaternion_correct quatOne (quatRot quatOne) (by simp) rfl
